import Mathlib

/-!
Verification of the PortfolioPerformance valuation engine.

This file shallowly embeds the core logic of the repository:
  * `price_data.py` — `PriceDataManager.get_price_on_date` and the price-row
    conversion loop `_import_price_data`;
  * `portfolio.py`  — `PortfolioManager.value_portfolio`,
    `add_asset_class_value`, `save_portfolio_valuation` and
    `calculate_winners_and_losers`.

Conventions of the embedding:
  * calendar dates are modelled as integers (`ℤ`), ordered as dates are;
  * Python floats are modelled as rationals (`ℚ`); the only rounding the
    claims touch is Python's `round(x, 0)` at exactly representable halves,
    modelled by `pyRound` (round half to even);
  * Python's `None` price/currency is `Option`;
  * a Python run that raises an uncaught exception (`TypeError`) is an
    `Except.error` value;
  * logging is modelled only as a counter of fatal-error log calls.
-/

/-- Valuation mode, the two valid values of the `mode` string argument. -/
inductive Mode where
  | current
  | prior
deriving DecidableEq, Repr

/-- Python's `round(q, 0)`: round half to even (banker's rounding), as applied
by the source to exactly representable values such as `n / 2`. -/
def pyRound (q : ℚ) : ℤ :=
  let f : ℤ := q.floor
  let r : ℚ := q - f
  if r < 1 / 2 then f
  else if 1 / 2 < r then f + 1
  else if f % 2 = 0 then f else f + 1

/-- Python's `str.lower()` on the ASCII symbol strings of this data set;
written over the character list so that it evaluates by kernel reduction. -/
def pyLower (s : String) : String := ⟨s.data.map Char.toLower⟩

/-- Equality of `Except` values is decidable; needed to evaluate the embedded
valuation pass on concrete inputs. -/
instance {ε α : Type} [DecidableEq ε] [DecidableEq α] : DecidableEq (Except ε α) := fun a b =>
  match a, b with
  | .error e, .error e' =>
      if h : e = e' then isTrue (by rw [h]) else isFalse (by intro hc; cases hc; exact h rfl)
  | .ok v, .ok v' =>
      if h : v = v' then isTrue (by rw [h]) else isFalse (by intro hc; cases hc; exact h rfl)
  | .error _, .ok _ => isFalse (by intro hc; cases hc)
  | .ok _, .error _ => isFalse (by intro hc; cases hc)

/-- One record of the in-memory price table of `PriceDataManager`
(post-import: date parsed, price converted). `currency` is `none` when the
source row had no currency value. -/
structure PriceEntry where
  symbol : String
  pdate : ℤ
  price : ℚ
  currency : Option String
deriving DecidableEq, Repr

/-- The per-entry test of the lookup loop (price_data.py line 88):
`entry.get("Symbol") == symbol and entry.get("Date") <= date`. -/
def priceMatch (symbol : String) (d : ℤ) (e : PriceEntry) : Bool :=
  e.symbol == symbol && decide (e.pdate ≤ d)

/-- `PriceDataManager.get_price_on_date` (price_data.py lines 82-95): symbol
`"cash"` (case-insensitively) is fixed at price 1.0 with no currency;
otherwise the first table entry whose symbol matches and whose date is ≤ the
query date is returned, and `(none, none)` when there is no such entry. -/
def getPriceOnDate (table : List PriceEntry) (symbol : String) (d : ℤ) :
    Option ℚ × Option String :=
  if pyLower symbol == "cash" then (some 1, none)
  else
    match table.find? (priceMatch symbol d) with
    | some e => (some e.price, e.currency)
    | none => (none, none)

/-- Per-mode valuation snapshot stored inside a holding (`new_holding`,
portfolio.py lines 168-179; display strings are omitted). -/
structure Snap where
  price : Option ℚ := none
  fxRate : Option ℚ := none
  value : ℚ := 0
deriving DecidableEq, Repr

/-- One holding of the portfolio (`new_holding`, portfolio.py lines 153-183;
display-only fields omitted). -/
structure Holding where
  symbol : String
  hclass : String
  currency : String
  unitsHeld : ℚ
  costBasis : ℚ
  current : Snap := {}
  prior : Snap := {}
  pcntChange : ℚ := 0
deriving DecidableEq, Repr

/-- The per-mode snapshot of a holding (`entry[mode]`). -/
def Holding.snap (h : Holding) : Mode → Snap
  | .current => h.current
  | .prior => h.prior

/-- Replace the per-mode snapshot of a holding (`entry[mode][...] = ...`). -/
def Holding.setSnap (h : Holding) (m : Mode) (s : Snap) : Holding :=
  match m with
  | .current => { h with current := s }
  | .prior => { h with prior := s }

/-- One entry of `self.asset_classes` (portfolio.py lines 315-323; display
strings omitted). -/
structure AssetClassEntry where
  acClass : String
  current : ℚ := 0
  prior : ℚ := 0
  valueChange : ℚ := 0
  pcntChange : ℚ := 0
deriving DecidableEq, Repr

/-- The per-mode accumulated total of an asset-class entry (`entry[mode]`). -/
def AssetClassEntry.get (e : AssetClassEntry) : Mode → ℚ
  | .current => e.current
  | .prior => e.prior

/-- Add `v` to the per-mode total of an asset-class entry
(`entry[mode] += value`). -/
def AssetClassEntry.add (e : AssetClassEntry) (m : Mode) (v : ℚ) : AssetClassEntry :=
  match m with
  | .current => { e with current := e.current + v }
  | .prior => { e with prior := e.prior + v }

/-- First loop of `add_asset_class_value` (portfolio.py lines 309-312): add
`v` to the first entry whose class matches, leave the rest unchanged. -/
def updateFirstClass (c : String) (m : Mode) (v : ℚ) :
    List AssetClassEntry → List AssetClassEntry
  | [] => []
  | e :: es =>
      if e.acClass == c then e.add m v :: es
      else e :: updateFirstClass c m v es

/-- Second loop of `add_asset_class_value` (portfolio.py lines 326-328): add
`v` to every entry whose class matches (the loop has no break). -/
def updateAllClass (c : String) (m : Mode) (v : ℚ) :
    List AssetClassEntry → List AssetClassEntry
  | [] => []
  | e :: es =>
      (if e.acClass == c then e.add m v else e) :: updateAllClass c m v es

/-- `PortfolioManager.add_asset_class_value` (portfolio.py lines 296-330):
if an entry for the class exists, accumulate into the first such entry and
return `True`; otherwise append a zeroed entry, accumulate into every entry of
that class, and return `True`. -/
def addAssetClassValue (acs : List AssetClassEntry) (c : String) (m : Mode) (v : ℚ) :
    List AssetClassEntry × Bool :=
  if acs.any (fun e => e.acClass == c) then (updateFirstClass c m v acs, true)
  else (updateAllClass c m v (acs ++ [{ acClass := c }]), true)

/-- Configuration values consumed by the valuation engine, with the defaults
of `config_schemas.py` / the `config.get(...)` call sites. `today` stands for
`DateHelper.today()`. -/
structure Config where
  reportingCurrency : String := "AUD"
  maxPriceMisses : ℕ := 2
  priorValuationDays : ℤ := 7
  winnersAndLosers : ℕ := 5
  today : ℤ
deriving DecidableEq, Repr

/-- The effective date of a valuation pass (portfolio.py lines 228-232). -/
def Config.effectiveDate (cfg : Config) : Mode → ℤ
  | .current => cfg.today
  | .prior => cfg.today - cfg.priorValuationDays

/-- Mutable state of `PortfolioManager` touched by the valuation engine.
`fatalErrors` counts `log_fatal_error` calls; `winners`/`losers` are the
ranking lists of `calculate_winners_and_losers`. -/
structure PMState where
  holdings : List Holding
  assetClasses : List AssetClassEntry := []
  valueCurrent : ℚ := 0
  valuePrior : ℚ := 0
  costBasisCurrent : ℚ := 0
  priceMisses : ℕ := 0
  fatalErrors : ℕ := 0
  winners : List Holding := []
  losers : List Holding := []
deriving DecidableEq, Repr

/-- The per-mode portfolio total (`self.value[mode]`). -/
def PMState.value (st : PMState) : Mode → ℚ
  | .current => st.valueCurrent
  | .prior => st.valuePrior

/-- Set the per-mode portfolio total (`self.value[mode] = ...`). -/
def PMState.setValue (st : PMState) (m : Mode) (v : ℚ) : PMState :=
  match m with
  | .current => { st with valueCurrent := v }
  | .prior => { st with valuePrior := v }

/-- The uncaught Python exception the valuation loop can raise. -/
inductive PyErr where
  | typeError
deriving DecidableEq, Repr

/-- The synthetic Yahoo FX symbol built in portfolio.py lines 248-251. -/
def fxSymbol (currency reporting : String) : String :=
  if currency == "USD" then reporting ++ "=X" else currency ++ reporting ++ "=X"

/-- The FX rate resolved for one holding in a valuation pass (portfolio.py
lines 247-259): `some 1` when the holding is in the reporting currency,
otherwise the as-of price of the synthetic FX symbol (which is `none` when
that lookup misses — in the source `fx_rate` is then left as `None` and a
fatal error is logged but execution continues). -/
def resolveFx (table : List PriceEntry) (reporting : String) (effDate : ℤ)
    (currency : String) : Option ℚ :=
  if currency == reporting then some 1
  else (getPriceOnDate table (fxSymbol currency reporting) effDate).1

/-- Whether the FX-resolution step of a holding logs a fatal error
(portfolio.py lines 254-255). -/
def fxFatal (table : List PriceEntry) (reporting : String) (effDate : ℤ)
    (currency : String) : ℕ :=
  if currency == reporting then 0
  else if (getPriceOnDate table (fxSymbol currency reporting) effDate).1.isNone then 1
  else 0

/-- Whether a holding is successfully priced for the pass (portfolio.py lines
262-269): its own price lookup returns a price whose currency, when present,
equals the holding's stated currency. -/
def pricedOk (table : List PriceEntry) (effDate : ℤ) (h : Holding) : Bool :=
  match getPriceOnDate table h.symbol effDate with
  | (some _, pc) => !(pc.isSome && pc != some h.currency)
  | (none, _) => false

/-- The body of the per-holding loop of `value_portfolio` (portfolio.py lines
240-285), threading the manager state and returning the updated holding.
`Except.error .typeError` models the uncaught `TypeError` raised by
`units_held * price * fx_rate` when `fx_rate` is `None` (line 272). -/
def processHolding (table : List PriceEntry) (cfg : Config) (effDate : ℤ) (m : Mode)
    (st : PMState) (h : Holding) : Except PyErr (PMState × Holding) :=
  let fxRate : Option ℚ := resolveFx table cfg.reportingCurrency effDate h.currency
  let st := { st with
    fatalErrors := st.fatalErrors + fxFatal table cfg.reportingCurrency effDate h.currency }
  match getPriceOnDate table h.symbol effDate with
  | (none, _) =>
      -- price miss: count it, contribute zero, leave the holding untouched
      let st := { st with priceMisses := st.priceMisses + 1 }
      .ok ({ st with assetClasses := (addAssetClassValue st.assetClasses h.hclass m 0).1 }, h)
  | (some p, pc) =>
      if pc.isSome && pc != some h.currency then
        -- currency mismatch: warning, counted as a miss, contribute zero
        let st := { st with priceMisses := st.priceMisses + 1 }
        .ok ({ st with assetClasses := (addAssetClassValue st.assetClasses h.hclass m 0).1 }, h)
      else
        -- hit: record the price, then compute units * price * fx
        let h := h.setSnap m { h.snap m with price := some p }
        match fxRate with
        | none => .error .typeError
        | some r =>
            let symbolValue := h.unitsHeld * p * r
            let h := h.setSnap m { h.snap m with fxRate := some r, value := symbolValue }
            let st := st.setValue m (st.value m + symbolValue)
            let st :=
              if m = .current then { st with costBasisCurrent := st.costBasisCurrent + h.costBasis }
              else st
            .ok ({ st with
              assetClasses := (addAssetClassValue st.assetClasses h.hclass m symbolValue).1 }, h)

/-- The holding loop of `value_portfolio`, over the remaining holdings;
returns the final state and the updated holdings in order. -/
def valuationLoop (table : List PriceEntry) (cfg : Config) (effDate : ℤ) (m : Mode) :
    PMState → List Holding → Except PyErr (PMState × List Holding)
  | st, [] => .ok (st, [])
  | st, h :: hs =>
      match processHolding table cfg effDate m st h with
      | .error e => .error e
      | .ok (st1, h1) =>
          match valuationLoop table cfg effDate m st1 hs with
          | .error e => .error e
          | .ok (st2, hs2) => .ok (st2, h1 :: hs2)

/-- The `Mode` denoted by a valid `mode` string. -/
def modeOf (mode : String) : Mode :=
  if mode == "Current" then .current else .prior

/-- `PortfolioManager.value_portfolio` (portfolio.py lines 216-294).
The ledger write of line 293 (`save_portfolio_valuation`) only touches the
ledger file and its result is discarded by the source; it is modelled
separately as `savePortfolioValuation`. -/
def valuePortfolio (table : List PriceEntry) (cfg : Config) (st : PMState)
    (mode : String) : Except PyErr (Bool × PMState) :=
  let st := { st with priceMisses := 0 }
  if mode != "Current" && mode != "Prior" then
    .ok (false, { st with fatalErrors := st.fatalErrors + 1 })
  else
    let m := modeOf mode
    let effDate := cfg.effectiveDate m
    let st := st.setValue m 0
    match valuationLoop table cfg effDate m st st.holdings with
    | .error e => .error e
    | .ok (st1, hs1) =>
        let st2 := { st1 with holdings := hs1 }
        if cfg.maxPriceMisses < st2.priceMisses then
          .ok (false, { st2 with fatalErrors := st2.fatalErrors + 1 })
        else
          .ok (true, st2)

/-- The per-holding percentage change computed in
`calculate_winners_and_losers` (portfolio.py lines 449-457). -/
def pcntOf (h : Holding) : ℚ :=
  if 0 < h.prior.value then (h.current.value - h.prior.value) / h.prior.value * 100 else 0

/-- The effective rank size of `calculate_winners_and_losers` (portfolio.py
lines 443-446): the configured count, replaced by Python's
`round(len(holdings) / 2, 0)` when it exceeds half the number of holdings. -/
def rankSizeOf (cfg : Config) (n : ℕ) : ℤ :=
  if (n : ℚ) / 2 < (cfg.winnersAndLosers : ℚ) then pyRound ((n : ℚ) / 2)
  else (cfg.winnersAndLosers : ℤ)

/-- The winner/loser selection loops (portfolio.py lines 467-476): starting at
index `i`, append entries and stop right after index `rank - 1`. -/
def selectRanked (rank : ℤ) : ℤ → List Holding → List Holding
  | _, [] => []
  | i, h :: hs => h :: (if i == rank - 1 then [] else selectRanked rank (i + 1) hs)

/-- Descending order on the computed percentage change
(`sort(key=itemgetter("PcntChange"), reverse=True)`). -/
def pcntDescRel (a b : Holding) : Prop := b.pcntChange ≤ a.pcntChange

instance : DecidableRel pcntDescRel := fun a b =>
  inferInstanceAs (Decidable (b.pcntChange ≤ a.pcntChange))

instance : IsTotal Holding pcntDescRel := ⟨fun a b => le_total b.pcntChange a.pcntChange⟩

instance : IsTrans Holding pcntDescRel :=
  ⟨fun _ _ _ hab hbc => le_trans hbc hab⟩

/-- Python's `<` on strings: lexicographic comparison of the code points,
written over the character lists so that it evaluates by kernel reduction. -/
def pyStrLt (a b : String) : Bool :=
  go a.data b.data
where
  go : List Char → List Char → Bool
    | [], [] => false
    | [], _ :: _ => true
    | _ :: _, [] => false
    | c :: cs, d :: ds => if c < d then true else if d < c then false else go cs ds

/-- Ascending order on the holding symbol (`sort(key=itemgetter("Symbol"))`):
`a` may sit before `b` when `b`'s symbol is not smaller. -/
def symbolAscRel (a b : Holding) : Prop := pyStrLt b.symbol a.symbol = false

instance : DecidableRel symbolAscRel := fun a b =>
  inferInstanceAs (Decidable (pyStrLt b.symbol a.symbol = false))

/-- `PortfolioManager.calculate_winners_and_losers` (portfolio.py lines
431-481): reset `winners` (but not `losers`), fail on an empty holding list,
compute each holding's percentage change, sort descending by it, select the
leading entries as winners and the leading entries of the reversed list as
losers, then re-sort the holdings by symbol. -/
def calculateWinnersAndLosers (cfg : Config) (st : PMState) : Bool × PMState :=
  let st := { st with winners := [] }
  if st.holdings.isEmpty then (false, st)
  else
    let rank := rankSizeOf cfg st.holdings.length
    let holdings1 := st.holdings.map (fun h => { h with pcntChange := pcntOf h })
    let sortedDesc := holdings1.insertionSort pcntDescRel
    let winners := selectRanked rank 0 sortedDesc
    let losers := st.losers ++ selectRanked rank 0 sortedDesc.reverse
    (true, { st with
      holdings := sortedDesc.insertionSort symbolAscRel
      winners := winners
      losers := losers })

/-- A Python value held in a `Date` or `Price` cell of an imported price row:
the raw CSV string, a parsed date, a converted float, or `None`. -/
inductive PVal where
  | str (s : String)
  | intv (d : ℤ)
  | qv (q : ℚ)
  | pynone
deriving DecidableEq, Repr

/-- One row of a price CSV as iterated by `_import_price_data`
(price_data.py lines 38-56); the `Name` column plays no role in the claims
and is omitted, and the `Date`/`Price` columns are assumed present (they are
per `price_csv_header_config`). -/
structure Row where
  symbol : String
  rdate : PVal
  rprice : PVal
deriving DecidableEq, Repr

/-- A raw CSV row, before any conversion. -/
def rawRow (sym ds ps : String) : Row := ⟨sym, .str ds, .str ps⟩

/-- Setting an element and erasing one occurrence never grows a list, so the
iterator measure of the import loop decreases. -/
theorem importMeasureErase (l : List Row) (i : ℕ) (hi : i < l.length) (x : Row) :
    ((l.set i x).erase x).length - (i + 1) < l.length - i := by
  have hle : ((l.set i x).erase x).length ≤ l.length := by
    have := (List.erase_sublist (l := l.set i x) (a := x)).length_le
    simpa using this
  omega

/-- The row-conversion loop of `_import_price_data` (price_data.py lines
38-56), with Python's exact `for entry in data` semantics: the iterator keeps
a numeric index into the (mutated) list, and `data.remove(entry)` deletes the
first element equal to `entry`, shifting the remainder left. -/
def importGo (dParse : String → Option ℤ) (pParse : String → Option ℚ)
    (data : List Row) (idx : ℕ) : List Row :=
  if h : idx < data.length then
    let e := data.get ⟨idx, h⟩
    match e.rdate with
    | .str s =>
        match dParse s with
        | none =>
            -- invalid date: entry["Date"] = None, then data.remove(entry)
            let e1 := { e with rdate := .pynone }
            importGo dParse pParse ((data.set idx e1).erase e1) (idx + 1)
        | some d =>
            let e1 := { e with rdate := .intv d }
            match e1.rprice with
            | .str ps =>
                match pParse ps with
                | none =>
                    -- invalid price: data.remove(entry)
                    importGo dParse pParse ((data.set idx e1).erase e1) (idx + 1)
                | some q =>
                    importGo dParse pParse (data.set idx { e1 with rprice := .qv q }) (idx + 1)
            | _ => importGo dParse pParse (data.set idx e1) (idx + 1)
    | _ =>
        -- never reached on CSV input: every examined entry still holds its raw
        -- string fields (skipped entries are never examined again)
        importGo dParse pParse data (idx + 1)
  else data
termination_by data.length - idx
decreasing_by
  · exact importMeasureErase _ _ h _
  · exact importMeasureErase _ _ h _
  · simp only [List.length_set]; omega
  · simp only [List.length_set]; omega
  · omega

/-- The conversion loop run over a whole imported row list. -/
def importRows (dParse : String → Option ℤ) (pParse : String → Option ℚ)
    (data : List Row) : List Row :=
  importGo dParse pParse data 0

/-- Python's `repr`/f-string rendering of the integral float produced by
`round(value, 0)` (portfolio.py line 372). -/
def pyFloatRepr (n : ℤ) : String := toString n ++ ".0"

/-- Whether a ledger row survives the read-back filter of
`save_portfolio_valuation` (portfolio.py lines 358-367): a row is kept when it
is non-empty, its first cell parses as a date, and that date differs from the
effective date being written. -/
def ledgerRowKeep (parse : String → Option ℤ) (d : ℤ) (row : List String) : Bool :=
  match row with
  | [] => false
  | c :: _ =>
      match parse c with
      | none => false
      | some rd => rd != d

/-- The sort key of the ledger rewrite (portfolio.py line 377):
`DateHelper.parse_date(x[0])`. Every row sorted by the source parses
successfully at that point; the `getD 0` default is never exercised then. -/
def ledgerKey (parse : String → Option ℤ) (row : List String) : ℤ :=
  (parse (row.headD "")).getD 0

/-- Comparison of ledger rows by parsed date. -/
def ledgerLe (parse : String → Option ℤ) (a b : List String) : Prop :=
  ledgerKey parse a ≤ ledgerKey parse b

instance (parse : String → Option ℤ) : DecidableRel (ledgerLe parse) := fun a b =>
  inferInstanceAs (Decidable (ledgerKey parse a ≤ ledgerKey parse b))

instance (parse : String → Option ℤ) : IsTotal (List String) (ledgerLe parse) :=
  ⟨fun a b => le_total (ledgerKey parse a) (ledgerKey parse b)⟩

instance (parse : String → Option ℤ) : IsTrans (List String) (ledgerLe parse) :=
  ⟨fun _ _ _ hab hbc => le_trans hab hbc⟩

/-- The write-back of a sorted row (portfolio.py line 389): the first cell is
re-parsed to a date, which the CSV writer renders back in ISO form — the same
`%Y-%m-%d` rendering as `format`. Rows at this point are non-empty and parse
successfully; the fallback branches are never exercised. -/
def rewriteLedgerRow (parse : String → Option ℤ) (format : ℤ → String)
    (row : List String) : List String :=
  match row with
  | [] => []
  | c :: rest => format ((parse c).getD 0) :: rest

/-- The read-modify-sort-write step of `save_portfolio_valuation`
(portfolio.py lines 352-390) on an in-memory file image: filter the body rows,
append the new record for the effective date with the rounded value, sort by
parsed date, and rewrite each row behind the preserved header. -/
def ledgerUpsert (parse : String → Option ℤ) (format : ℤ → String) (d : ℤ) (vall : ℚ)
    (header : List String) (body : List (List String)) : List (List String) :=
  let kept := body.filter (ledgerRowKeep parse d)
  let newRecord := [format d, pyFloatRepr (pyRound vall)]
  let rows := kept ++ [newRecord]
  let sorted := rows.insertionSort (ledgerLe parse)
  header :: sorted.map (rewriteLedgerRow parse format)

/-- `PortfolioManager.save_portfolio_valuation` (portfolio.py lines 332-393)
over a file image. The outer `Option` of `ledger` is whether the valuation
file is configured at all; the inner one is whether the file exists on disk
(its content being a list of CSV rows, the first row the header). The result
is `none` when the source would raise: an existing but empty file makes
`next(reader, None)` return `None`, and `writer.writerow(None)` raises. -/
def savePortfolioValuation (parse : String → Option ℤ) (format : ℤ → String)
    (ledger : Option (Option (List (List String)))) (effDate : Option ℤ) (vall : ℚ) :
    Option (Bool × Option (Option (List (List String)))) :=
  match ledger with
  | none => some (false, none)
  | some file =>
      match effDate with
      | none => some (false, some file)
      | some d =>
          match file with
          | some [] => none
          | none => some (true, some (some (ledgerUpsert parse format d vall ["Date", "Valuation"] [])))
          | some (hd :: tl) => some (true, some (some (ledgerUpsert parse format d vall hd tl)))

/-- The number of price misses one holding adds to the pass counter. -/
def missOf (table : List PriceEntry) (effDate : ℤ) (h : Holding) : ℕ :=
  if pricedOk table effDate h then 0 else 1

/-- The value a holding contributes to the per-mode portfolio total:
`units_held * price * fx_rate` when successfully priced, `0` on a miss
(portfolio.py lines 263-275). The `getD 0` default is only reached in the
state in which the source raises instead of producing a total. -/
def holdingContribution (table : List PriceEntry) (cfg : Config) (effDate : ℤ)
    (h : Holding) : ℚ :=
  match getPriceOnDate table h.symbol effDate with
  | (some p, pc) =>
      if pc.isSome && pc != some h.currency then 0
      else h.unitsHeld * p * ((resolveFx table cfg.reportingCurrency effDate h.currency).getD 0)
  | (none, _) => 0

/-- Whether processing a holding raises the `TypeError` of portfolio.py line
272: the holding is successfully priced but its FX lookup returned `None`. -/
def crashesOn (table : List PriceEntry) (cfg : Config) (effDate : ℤ) (h : Holding) : Bool :=
  pricedOk table effDate h
    && (resolveFx table cfg.reportingCurrency effDate h.currency).isNone

/-- The holding as updated by one pass of the valuation loop: on a hit, the
per-mode snapshot receives the resolved price, FX rate and value; on a miss
the holding is untouched (portfolio.py lines 262-278). -/
def processedHolding (table : List PriceEntry) (cfg : Config) (effDate : ℤ) (m : Mode)
    (h : Holding) : Holding :=
  match getPriceOnDate table h.symbol effDate with
  | (some p, pc) =>
      if pc.isSome && pc != some h.currency then h
      else
        let h1 := h.setSnap m { h.snap m with price := some p }
        match resolveFx table cfg.reportingCurrency effDate h.currency with
        | none => h1
        | some r => h1.setSnap m { h1.snap m with fxRate := some r, value := h1.unitsHeld * p * r }
  | (none, _) => h

/-- Modelled from the claim text of the lookup specification: scan the table
and return the price and currency of the first record whose symbol matches
and whose date is ≤ the query date, with `(none, none)` when no record
matches. This is the claimed behaviour for every non-cash symbol, stated
without the source's case-insensitive cash guard. -/
def specScanPrice (table : List PriceEntry) (symbol : String) (d : ℤ) :
    Option ℚ × Option String :=
  match table.find? (priceMatch symbol d) with
  | some e => (some e.price, e.currency)
  | none => (none, none)

/-- Descending (date, symbol) order of the price table established by
`_import_price_data` (price_data.py line 64). -/
def tableSortedDesc (table : List PriceEntry) : Prop :=
  table.Pairwise (fun a b => b.pdate < a.pdate ∨ (b.pdate = a.pdate ∧ b.symbol ≤ a.symbol))

/-- A sequence of `add_asset_class_value` calls applied to an initially empty
asset-class list, as done by the valuation passes. -/
def runCalls (calls : List (String × Mode × ℚ)) : List AssetClassEntry :=
  calls.foldl (fun acs c => (addAssetClassValue acs c.1 c.2.1 c.2.2).1) []

/-- The header row `save_portfolio_valuation` writes back: the original first
row of an existing file, or the default when the file does not exist yet
(portfolio.py lines 353-357). -/
def fileHeader : Option (List (List String)) → List String
  | none => ["Date", "Valuation"]
  | some [] => []
  | some (hd :: _) => hd

/-- The data rows read back from an existing ledger file. -/
def fileBody : Option (List (List String)) → List (List String)
  | none => []
  | some [] => []
  | some (_ :: tl) => tl

/-- A date parser standing in for `DateHelper.parse_date` on the concrete
strings of the witness inputs. -/
def dateParseEx (s : String) : Option ℤ :=
  if s = "1" then some 1
  else if s = "2" then some 2
  else if s = "3" then some 3
  else if s = "4" then some 4
  else none

/-- A date formatter standing in for the ISO rendering of `format_date` on
the concrete dates of the witness inputs. -/
def dateFormatEx (d : ℤ) : String :=
  if d = 1 then "1"
  else if d = 2 then "2"
  else if d = 3 then "3"
  else if d = 4 then "4"
  else "?"

/-- A price parser standing in for Python's `float(...)` on the concrete
strings of the witness inputs. -/
def priceParseEx (s : String) : Option ℚ :=
  if s = "1" then some 1
  else if s = "2" then some 2
  else if s = "4" then some 4
  else none

/-- Concrete price table for the C1 witness: one AUD-priced symbol. -/
def tblW : List PriceEntry := [⟨"AAPL", 0, 3, some "AUD"⟩]

/-- Configuration with all defaults, valuing as of day 0. -/
def cfgW : Config := { today := 0 }

/-- C1 witness portfolio: one holding that hits, one that misses. -/
def stW : PMState := { holdings := [
  { symbol := "AAPL", hclass := "Equity", currency := "AUD", unitsHeld := 2, costBasis := 5 },
  { symbol := "XYZ", hclass := "Bond", currency := "AUD", unitsHeld := 1, costBasis := 1 }] }

/-- The state produced by the C1 witness pass. -/
def stWOut : PMState where
  holdings := [
    { symbol := "AAPL", hclass := "Equity", currency := "AUD", unitsHeld := 2, costBasis := 5,
      current := { price := some 3, fxRate := some 1, value := 6 } },
    { symbol := "XYZ", hclass := "Bond", currency := "AUD", unitsHeld := 1, costBasis := 1 }]
  assetClasses := [{ acClass := "Equity", current := 6 }, { acClass := "Bond" }]
  valueCurrent := 6
  costBasisCurrent := 5
  priceMisses := 1

/-- C3 witness portfolio: three holdings, none of them priced. -/
def stW3 : PMState := { holdings := [
  { symbol := "A1", hclass := "E", currency := "AUD", unitsHeld := 1, costBasis := 0 },
  { symbol := "A2", hclass := "E", currency := "AUD", unitsHeld := 1, costBasis := 0 },
  { symbol := "A3", hclass := "E", currency := "AUD", unitsHeld := 1, costBasis := 0 }] }

/-- The state produced by the C3 witness pass: 3 misses against a maximum
of 2, so the pass fails after logging a fatal error. -/
def stW3Out : PMState where
  holdings := stW3.holdings
  assetClasses := [{ acClass := "E" }]
  priceMisses := 3
  fatalErrors := 1

/-- C4 witness table: a USD-priced symbol and the `"AUD=X"` FX rate. -/
def tblFx : List PriceEntry := [⟨"AAPL", 0, 150, some "USD"⟩, ⟨"AUD=X", 0, 2, none⟩]

/-- C4 witness portfolio: a single USD holding. -/
def stFx : PMState := { holdings := [
  { symbol := "AAPL", hclass := "Equity", currency := "USD", unitsHeld := 10, costBasis := 0 }] }

/-- The state produced by the C4 witness pass: FX rate 2 applied. -/
def stFxOut : PMState where
  holdings := [
    { symbol := "AAPL", hclass := "Equity", currency := "USD", unitsHeld := 10, costBasis := 0,
      current := { price := some 150, fxRate := some 2, value := 3000 } }]
  assetClasses := [{ acClass := "Equity", current := 3000 }]
  valueCurrent := 3000

/-- C5 failing input, price table: the holding's own price exists, but there
is no `"AUD=X"` FX record. -/
def tblCrash : List PriceEntry := [⟨"AAPL", 0, 150, some "USD"⟩]

/-- C5 failing input, portfolio: a single USD holding whose FX lookup misses
while its own price lookup succeeds. -/
def stCrash : PMState := { holdings := [
  { symbol := "AAPL", hclass := "Equity", currency := "USD", unitsHeld := 10, costBasis := 0 }] }

/-- C5 companion table: only the second holding's AUD price exists. -/
def tblC5 : List PriceEntry := [⟨"BHP", 0, 30, some "AUD"⟩]

/-- C5 companion portfolio: the USD holding misses both its FX rate and its
own price, and a later AUD holding follows. -/
def stC5 : PMState := { holdings := [
  { symbol := "AAPL", hclass := "Equity", currency := "USD", unitsHeld := 10, costBasis := 0 },
  { symbol := "BHP", hclass := "Mining", currency := "AUD", unitsHeld := 2, costBasis := 0 }] }

/-- The state produced by the C5 companion pass: the fatal FX condition was
logged (not raised) and the later holding was still valued. -/
def stC5Out : PMState where
  holdings := [
    { symbol := "AAPL", hclass := "Equity", currency := "USD", unitsHeld := 10, costBasis := 0 },
    { symbol := "BHP", hclass := "Mining", currency := "AUD", unitsHeld := 2, costBasis := 0,
      current := { price := some 30, fxRate := some 1, value := 60 } }]
  assetClasses := [{ acClass := "Equity" }, { acClass := "Mining", current := 60 }]
  valueCurrent := 60
  priceMisses := 1
  fatalErrors := 1

/-- C2 witness table: two records for one symbol, sorted descending. -/
def tblC2 : List PriceEntry :=
  [⟨"AAPL", 3, 4, some "AUD"⟩, ⟨"AAPL", 1, 3, some "AUD"⟩]

/-- C2 counterexample table: one record for the upper-case symbol "CASH". -/
def tblCASH : List PriceEntry := [⟨"CASH", 0, 2, some "AUD"⟩]

/-- C9 witness portfolio: one holding with positive prior value and one with
a zero prior value. -/
def st9 : PMState := { holdings := [
  { symbol := "A", hclass := "E", currency := "AUD", unitsHeld := 1, costBasis := 0,
    current := { value := 6 }, prior := { value := 4 } },
  { symbol := "B", hclass := "E", currency := "AUD", unitsHeld := 1, costBasis := 0,
    current := { value := 9 }, prior := { value := 0 } }] }

/-- C6 counterexample portfolio: three holdings. -/
def st6 : PMState := { holdings := [
  { symbol := "A", hclass := "E", currency := "AUD", unitsHeld := 1, costBasis := 0,
    current := { value := 3 }, prior := { value := 1 } },
  { symbol := "B", hclass := "E", currency := "AUD", unitsHeld := 1, costBasis := 0,
    current := { value := 2 }, prior := { value := 1 } },
  { symbol := "C", hclass := "E", currency := "AUD", unitsHeld := 1, costBasis := 0,
    current := { value := 1 }, prior := { value := 1 } }] }

/-- C6 witness portfolio: ten holdings. -/
def st10 : PMState where
  holdings := ["A", "B", "C", "D", "E", "F", "G", "H", "I", "J"].map (fun sym =>
    { symbol := sym, hclass := "E", currency := "AUD", unitsHeld := 1, costBasis := 0,
      current := { value := 2 }, prior := { value := 1 } })

/-- Configuration with a winners/losers count of 6, above half of ten. -/
def cfg6 : Config := { today := 0, winnersAndLosers := 6 }

/-- C7 witness file image: a header, a kept row, a row with an unparseable
date, and a row for the date about to be upserted. -/
def ledgerFileEx : Option (List (List String)) :=
  some [["Date", "Valuation"], ["2", "900.0"], ["zz", "5"], ["1", "1000.0"]]

/-- C10 witness call sequence. -/
def callsL0 : List (String × Mode × ℚ) :=
  [("Equity", Mode.current, (5 : ℚ)), ("Bond", Mode.current, (3 : ℚ))]

theorem value_setValue (st : PMState) (m : Mode) (v : ℚ) : (st.setValue m v).value m = v := by
  cases m <;> rfl

theorem holdings_setValue (st : PMState) (m : Mode) (v : ℚ) :
    (st.setValue m v).holdings = st.holdings := by
  cases m <;> rfl

theorem priceMisses_setValue (st : PMState) (m : Mode) (v : ℚ) :
    (st.setValue m v).priceMisses = st.priceMisses := by
  cases m <;> rfl

/-- Characterization of a successful step of the per-holding loop: the holding
comes out as `processedHolding`, the per-mode total grows by the holding's
contribution, the miss counter grows by its miss count, and the holding list
field is untouched. -/
theorem processHolding_ok (table : List PriceEntry) (cfg : Config) (effDate : ℤ) (m : Mode)
    (st : PMState) (h : Holding) (st1 : PMState) (h1 : Holding)
    (heq : processHolding table cfg effDate m st h = .ok (st1, h1)) :
    h1 = processedHolding table cfg effDate m h ∧
    st1.value m = st.value m + holdingContribution table cfg effDate h ∧
    st1.priceMisses = st.priceMisses + missOf table effDate h ∧
    st1.holdings = st.holdings := by
  rcases hgp : getPriceOnDate table h.symbol effDate with ⟨op, pc⟩
  cases op with
  | none =>
      simp only [processHolding, hgp] at heq
      rw [Except.ok.injEq, Prod.mk.injEq] at heq
      obtain ⟨hst, hh⟩ := heq
      subst hst; subst hh
      refine ⟨?_, ?_, ?_, ?_⟩
      · simp [processedHolding, hgp]
      · cases m <;> simp [PMState.value, holdingContribution, hgp]
      · simp [missOf, pricedOk, hgp]
      · rfl
  | some p =>
      by_cases hmis : (pc.isSome && pc != some h.currency) = true
      · simp only [processHolding, hgp, hmis, if_true, reduceIte] at heq
        rw [Except.ok.injEq, Prod.mk.injEq] at heq
        obtain ⟨hst, hh⟩ := heq
        subst hst; subst hh
        refine ⟨?_, ?_, ?_, ?_⟩
        · simp [processedHolding, hgp, hmis]
        · cases m <;> simp [PMState.value, holdingContribution, hgp, hmis]
        · simp [missOf, pricedOk, hgp, hmis]
        · rfl
      · rcases hfx : resolveFx table cfg.reportingCurrency effDate h.currency with _ | r
        · simp [processHolding, hgp, hmis, hfx] at heq
        · simp only [processHolding, hgp, hmis, hfx, Bool.false_eq_true, if_false,
            reduceIte] at heq
          rw [Except.ok.injEq, Prod.mk.injEq] at heq
          obtain ⟨hst, hh⟩ := heq
          subst hst; subst hh
          refine ⟨?_, ?_, ?_, ?_⟩
          · simp [processedHolding, hgp, hmis, hfx]
          · cases m <;>
              simp [PMState.value, PMState.setValue, holdingContribution, hgp, hmis, hfx,
                Holding.setSnap, Holding.snap]
          · cases m <;> simp [PMState.setValue, missOf, pricedOk, hgp, hmis]
          · cases m <;> simp [PMState.setValue]

/-- A holding in the crash state makes the loop body raise: the holding is
priced, but `fx_rate` is `None`, so `units_held * price * fx_rate` is a
`TypeError` (portfolio.py line 272). -/
theorem processHolding_crash (table : List PriceEntry) (cfg : Config) (effDate : ℤ)
    (m : Mode) (st : PMState) (h : Holding)
    (hc : crashesOn table cfg effDate h = true) :
    processHolding table cfg effDate m st h = .error .typeError := by
  simp only [crashesOn, Bool.and_eq_true, Option.isNone_iff_eq_none] at hc
  obtain ⟨hok, hfx⟩ := hc
  rcases hgp : getPriceOnDate table h.symbol effDate with ⟨op, pc⟩
  cases op with
  | none => simp [pricedOk, hgp] at hok
  | some p =>
      simp only [pricedOk, hgp, Bool.not_eq_eq_eq_not, Bool.not_true] at hok
      simp [processHolding, hgp, hok, hfx]

/-- A holding processed without an exception is not in the crash state. -/
theorem processHolding_ok_noCrash (table : List PriceEntry) (cfg : Config) (effDate : ℤ)
    (m : Mode) (st : PMState) (h : Holding) (x : PMState × Holding)
    (heq : processHolding table cfg effDate m st h = .ok x) :
    crashesOn table cfg effDate h = false := by
  by_cases hc : crashesOn table cfg effDate h = true
  · rw [processHolding_crash table cfg effDate m st h hc] at heq
    cases heq
  · simpa using hc

/-- Characterization of a completed holding loop: holdings map through
`processedHolding`, the per-mode total and the miss counter accumulate the
per-holding contributions and misses, the holdings field is untouched, and no
processed holding was in the crash state. -/
theorem valuationLoop_ok (table : List PriceEntry) (cfg : Config) (effDate : ℤ) (m : Mode) :
    ∀ (l : List Holding) (st st2 : PMState) (l2 : List Holding),
      valuationLoop table cfg effDate m st l = .ok (st2, l2) →
      l2 = l.map (processedHolding table cfg effDate m) ∧
      st2.value m = st.value m + (l.map (holdingContribution table cfg effDate)).sum ∧
      st2.priceMisses = st.priceMisses + (l.map (missOf table effDate)).sum ∧
      st2.holdings = st.holdings ∧
      ∀ h0 ∈ l, crashesOn table cfg effDate h0 = false := by
  intro l
  induction l with
  | nil =>
      intro st st2 l2 heq
      simp only [valuationLoop] at heq
      rw [Except.ok.injEq, Prod.mk.injEq] at heq
      obtain ⟨hst, hl⟩ := heq
      subst hst; subst hl
      simp
  | cons h hs ih =>
      intro st st2 l2 heq
      simp only [valuationLoop] at heq
      split at heq
      · cases heq
      · next st1 h1 hph =>
          split at heq
          · cases heq
          · next stA lA hvl =>
              rw [Except.ok.injEq, Prod.mk.injEq] at heq
              obtain ⟨hst, hl⟩ := heq
              subst hst; subst hl
              obtain ⟨hh1, hval, hmiss, hhold⟩ :=
                processHolding_ok table cfg effDate m st h st1 h1 hph
              obtain ⟨ih1, ih2, ih3, ih4, ih5⟩ := ih st1 stA lA hvl
              refine ⟨?_, ?_, ?_, ?_, ?_⟩
              · simp [List.map_cons, hh1, ih1]
              · rw [List.map_cons, List.sum_cons, ih2, hval, add_assoc]
              · rw [List.map_cons, List.sum_cons, ih3, hmiss, Nat.add_assoc]
              · rw [ih4, hhold]
              · intro h0 hmem
                rcases List.mem_cons.mp hmem with hmem | hmem
                · subst hmem
                  exact processHolding_ok_noCrash table cfg effDate m st h0 (st1, h1) hph
                · exact ih5 h0 hmem

theorem value_update_holdings (st : PMState) (hs : List Holding) (m : Mode) :
    ({ st with holdings := hs } : PMState).value m = st.value m := by
  cases m <;> rfl

theorem value_update_holdings_fatal (st : PMState) (hs : List Holding) (n : ℕ) (m : Mode) :
    ({ st with holdings := hs, fatalErrors := n } : PMState).value m = st.value m := by
  cases m <;> rfl

/-- For a valid mode string, `valuePortfolio` is exactly the reset-run-check
skeleton over the holding loop. -/
theorem valuePortfolio_eq_of_valid (table : List PriceEntry) (cfg : Config) (st : PMState)
    (m : Mode) (mode : String)
    (hmode : (mode = "Current" ∧ m = .current) ∨ (mode = "Prior" ∧ m = .prior)) :
    valuePortfolio table cfg st mode =
      match valuationLoop table cfg (cfg.effectiveDate m) m
          (({ st with priceMisses := 0 } : PMState).setValue m 0) st.holdings with
      | .error e => .error e
      | .ok (st1, hs1) =>
          if cfg.maxPriceMisses < st1.priceMisses then
            .ok (false, { st1 with holdings := hs1, fatalErrors := st1.fatalErrors + 1 })
          else .ok (true, { st1 with holdings := hs1 }) := by
  rcases hmode with ⟨rfl, rfl⟩ | ⟨rfl, rfl⟩ <;>
    simp [valuePortfolio, modeOf, holdings_setValue]

/-- Characterization of a completed valuation pass with a valid mode: the
recorded total is the sum of the holdings' contributions (independently of
any previously recorded total), the recorded miss count is the sum of the
holdings' misses, the holdings are the processed holdings in order, the
returned flag is `False` exactly when the miss count exceeds the configured
maximum, and no holding was in the crash state. -/
theorem valuePortfolio_ok_spec (table : List PriceEntry) (cfg : Config) (st : PMState)
    (mode : String) (b : Bool) (st' : PMState)
    (hm : mode = "Current" ∨ mode = "Prior")
    (heq : valuePortfolio table cfg st mode = .ok (b, st')) :
    st'.value (modeOf mode) =
      (st.holdings.map (holdingContribution table cfg (cfg.effectiveDate (modeOf mode)))).sum ∧
    st'.priceMisses =
      (st.holdings.map (missOf table (cfg.effectiveDate (modeOf mode)))).sum ∧
    st'.holdings =
      st.holdings.map (processedHolding table cfg (cfg.effectiveDate (modeOf mode)) (modeOf mode)) ∧
    (b = false ↔ cfg.maxPriceMisses < st'.priceMisses) ∧
    (∀ h0 ∈ st.holdings, crashesOn table cfg (cfg.effectiveDate (modeOf mode)) h0 = false) := by
  have hmm : (mode = "Current" ∧ modeOf mode = .current) ∨
      (mode = "Prior" ∧ modeOf mode = .prior) := by
    rcases hm with rfl | rfl <;> simp [modeOf]
  rw [valuePortfolio_eq_of_valid table cfg st (modeOf mode) mode hmm] at heq
  split at heq
  · cases heq
  · next st1 hs1 hvl =>
      obtain ⟨hl, hv, hmiss, hh, hnc⟩ :=
        valuationLoop_ok table cfg (cfg.effectiveDate (modeOf mode)) (modeOf mode)
          st.holdings _ st1 hs1 hvl
      have hv0 : (({ st with priceMisses := 0 } : PMState).setValue (modeOf mode) 0).value
          (modeOf mode) = 0 := value_setValue _ _ _
      have hp0 : (({ st with priceMisses := 0 } : PMState).setValue (modeOf mode) 0).priceMisses
          = 0 := by
        rw [priceMisses_setValue]
      rw [hv0, zero_add] at hv
      rw [hp0, Nat.zero_add] at hmiss
      split at heq
      · next hcond =>
          rw [Except.ok.injEq, Prod.mk.injEq] at heq
          obtain ⟨hb, hst⟩ := heq
          subst hb; subst hst
          refine ⟨?_, ?_, ?_, ?_, hnc⟩
          · rw [value_update_holdings_fatal, hv]
          · exact hmiss
          · exact hl
          · simpa [hmiss] using hcond
      · next hcond =>
          rw [Except.ok.injEq, Prod.mk.injEq] at heq
          obtain ⟨hb, hst⟩ := heq
          subst hb; subst hst
          refine ⟨?_, ?_, ?_, ?_, hnc⟩
          · rw [value_update_holdings, hv]
          · exact hmiss
          · exact hl
          · simp only [hmiss]
            constructor
            · intro hfalse; cases hfalse
            · intro hlt; exact absurd hlt (by simpa [hmiss] using hcond)

/-- A price miss, including a currency mismatch, contributes exactly zero. -/
theorem holdingContribution_of_miss (table : List PriceEntry) (cfg : Config) (effDate : ℤ)
    (h : Holding) (hok : pricedOk table effDate h = false) :
    holdingContribution table cfg effDate h = 0 := by
  rcases hgp : getPriceOnDate table h.symbol effDate with ⟨op, pc⟩
  cases op with
  | none => simp [holdingContribution, hgp]
  | some p =>
      simp only [pricedOk, hgp, Bool.not_eq_eq_eq_not, Bool.not_false] at hok
      simp [holdingContribution, hgp, hok]

/-- A priced holding that does not crash contributes exactly
`units_held * price * fx_rate` for the looked-up price and resolved rate. -/
theorem holdingContribution_of_hit (table : List PriceEntry) (cfg : Config) (effDate : ℤ)
    (h : Holding) (hok : pricedOk table effDate h = true)
    (hnc : crashesOn table cfg effDate h = false) :
    ∃ p r, (getPriceOnDate table h.symbol effDate).1 = some p ∧
      resolveFx table cfg.reportingCurrency effDate h.currency = some r ∧
      holdingContribution table cfg effDate h = h.unitsHeld * p * r := by
  rcases hgp : getPriceOnDate table h.symbol effDate with ⟨op, pc⟩
  cases op with
  | none => simp [pricedOk, hgp] at hok
  | some p =>
      simp only [pricedOk, hgp, Bool.not_eq_eq_eq_not, Bool.not_true] at hok
      rcases hfx : resolveFx table cfg.reportingCurrency effDate h.currency with _ | r
      · simp [crashesOn, pricedOk, hgp, hok, hfx] at hnc
      · exact ⟨p, r, by simp [hgp], rfl, by simp [holdingContribution, hgp, hok, hfx]⟩

/-- Claim C1: for a valuation pass with a valid mode that returns, the total
recorded for that mode equals the sum of `units_held * price * fx_rate` over
exactly the holdings that found a price with consistent currency; every miss
contributes exactly 0, and the result does not depend on the total recorded
before the pass (the running total is reset to zero at the start). -/
theorem c1_valuation_total (table : List PriceEntry) (cfg : Config) (st : PMState)
    (mode : String) (b : Bool) (st' : PMState)
    (hm : mode = "Current" ∨ mode = "Prior")
    (heq : valuePortfolio table cfg st mode = .ok (b, st')) :
    st'.value (modeOf mode) =
      (st.holdings.map (holdingContribution table cfg (cfg.effectiveDate (modeOf mode)))).sum ∧
    (∀ h0 ∈ st.holdings, pricedOk table (cfg.effectiveDate (modeOf mode)) h0 = false →
        holdingContribution table cfg (cfg.effectiveDate (modeOf mode)) h0 = 0) ∧
    (∀ h0 ∈ st.holdings, pricedOk table (cfg.effectiveDate (modeOf mode)) h0 = true →
        ∃ p r, (getPriceOnDate table h0.symbol (cfg.effectiveDate (modeOf mode))).1 = some p ∧
          resolveFx table cfg.reportingCurrency (cfg.effectiveDate (modeOf mode)) h0.currency
            = some r ∧
          holdingContribution table cfg (cfg.effectiveDate (modeOf mode)) h0
            = h0.unitsHeld * p * r) := by
  obtain ⟨hval, _, _, _, hnc⟩ := valuePortfolio_ok_spec table cfg st mode b st' hm heq
  refine ⟨hval, ?_, ?_⟩
  · intro h0 _ hmiss
    exact holdingContribution_of_miss table cfg _ h0 hmiss
  · intro h0 hmem hok
    exact holdingContribution_of_hit table cfg _ h0 hok (hnc h0 hmem)

/-- For an invalid mode string, the pass logs a fatal error and returns
failure immediately (portfolio.py lines 233-235). -/
theorem valuePortfolio_invalid (table : List PriceEntry) (cfg : Config) (st : PMState)
    (mode : String) (h1 : mode ≠ "Current") (h2 : mode ≠ "Prior") :
    valuePortfolio table cfg st mode =
      .ok (false, { st with priceMisses := 0, fatalErrors := st.fatalErrors + 1 }) := by
  simp [valuePortfolio, h1, h2]

/-- Claim C3: a valuation pass with a valid mode that returns reports failure
exactly when the final price-miss count (the sum of the per-holding misses)
strictly exceeds the configured maximum; an invalid mode is the only other
way for the pass to return failure. -/
theorem c3_miss_threshold (table : List PriceEntry) (cfg : Config) (st : PMState)
    (mode : String) (b : Bool) (st' : PMState)
    (hm : mode = "Current" ∨ mode = "Prior")
    (heq : valuePortfolio table cfg st mode = .ok (b, st')) :
    (b = false ↔ cfg.maxPriceMisses < st'.priceMisses) ∧
    st'.priceMisses = (st.holdings.map (missOf table (cfg.effectiveDate (modeOf mode)))).sum ∧
    (∀ mode2 : String, mode2 ≠ "Current" → mode2 ≠ "Prior" →
        valuePortfolio table cfg st mode2 =
          .ok (false, { st with priceMisses := 0, fatalErrors := st.fatalErrors + 1 })) := by
  obtain ⟨_, hmiss, _, hiff, _⟩ := valuePortfolio_ok_spec table cfg st mode b st' hm heq
  exact ⟨hiff, hmiss, fun mode2 u1 u2 => valuePortfolio_invalid table cfg st mode2 u1 u2⟩

theorem resolveFx_of_eq (table : List PriceEntry) (rep : String) (effDate : ℤ) (c : String)
    (hc : c = rep) : resolveFx table rep effDate c = some 1 := by
  simp [resolveFx, hc]

theorem resolveFx_of_ne (table : List PriceEntry) (rep : String) (effDate : ℤ) (c : String)
    (hc : c ≠ rep) :
    resolveFx table rep effDate c = (getPriceOnDate table (fxSymbol c rep) effDate).1 := by
  simp [resolveFx, hc]

/-- The FX rate recorded for a priced, non-crashing holding is the rate
resolved by the pass. -/
theorem processedHolding_fxRate (table : List PriceEntry) (cfg : Config) (effDate : ℤ)
    (m : Mode) (h : Holding) (hok : pricedOk table effDate h = true)
    (hnc : crashesOn table cfg effDate h = false) :
    ((processedHolding table cfg effDate m h).snap m).fxRate =
      resolveFx table cfg.reportingCurrency effDate h.currency := by
  rcases hgp : getPriceOnDate table h.symbol effDate with ⟨op, pc⟩
  cases op with
  | none => simp [pricedOk, hgp] at hok
  | some p =>
      simp only [pricedOk, hgp, Bool.not_eq_eq_eq_not, Bool.not_true] at hok
      rcases hfx : resolveFx table cfg.reportingCurrency effDate h.currency with _ | r
      · simp [crashesOn, pricedOk, hgp, hok, hfx] at hnc
      · simp only [processedHolding, hgp, hok, Bool.false_eq_true, if_false, hfx]
        cases m <;> simp [Holding.setSnap, Holding.snap]

/-- Claim C4: in a valuation pass with a valid mode that returns, every
successfully priced holding whose currency equals the reporting currency is
valued with FX rate exactly 1.0, and every other priced holding is valued
with the rate looked up, as of the effective date, under the synthetic symbol
`"{Currency}{ReportingCurrency}=X"` — built as `"{ReportingCurrency}=X"` when
the holding currency is `"USD"` (`fxSymbol`). -/
theorem c4_fx_resolution (table : List PriceEntry) (cfg : Config) (st : PMState)
    (mode : String) (b : Bool) (st' : PMState)
    (hm : mode = "Current" ∨ mode = "Prior")
    (heq : valuePortfolio table cfg st mode = .ok (b, st')) :
    ∀ i (hi : i < st.holdings.length) (hi' : i < st'.holdings.length),
      pricedOk table (cfg.effectiveDate (modeOf mode)) (st.holdings.get ⟨i, hi⟩) = true →
      ((st.holdings.get ⟨i, hi⟩).currency = cfg.reportingCurrency →
        ((st'.holdings.get ⟨i, hi'⟩).snap (modeOf mode)).fxRate = some 1) ∧
      ((st.holdings.get ⟨i, hi⟩).currency ≠ cfg.reportingCurrency →
        ((st'.holdings.get ⟨i, hi'⟩).snap (modeOf mode)).fxRate =
          (getPriceOnDate table
            (fxSymbol (st.holdings.get ⟨i, hi⟩).currency cfg.reportingCurrency)
            (cfg.effectiveDate (modeOf mode))).1) := by
  obtain ⟨_, _, hholds, _, hnc⟩ := valuePortfolio_ok_spec table cfg st mode b st' hm heq
  intro i hi hi' hok
  have hmem : st.holdings.get ⟨i, hi⟩ ∈ st.holdings := List.get_mem _ _ _
  have hrec : ((st'.holdings.get ⟨i, hi'⟩).snap (modeOf mode)).fxRate =
      resolveFx table cfg.reportingCurrency (cfg.effectiveDate (modeOf mode))
        (st.holdings.get ⟨i, hi⟩).currency := by
    have hget : st'.holdings.get ⟨i, hi'⟩ =
        processedHolding table cfg (cfg.effectiveDate (modeOf mode)) (modeOf mode)
          (st.holdings.get ⟨i, hi⟩) := by
      rw [List.get_of_eq hholds ⟨i, hi'⟩]
      simp
    rw [hget]
    exact processedHolding_fxRate table cfg _ (modeOf mode) _ hok (hnc _ hmem)
  constructor
  · intro hcur
    rw [hrec, resolveFx_of_eq _ _ _ _ hcur]
  · intro hcur
    rw [hrec, resolveFx_of_ne _ _ _ _ hcur]

unseal Rat.mul Rat.add Rat.sub Rat.inv in
theorem c1_valuation_total_witness :
    ("Current" = "Current" ∨ "Current" = "Prior") ∧
    valuePortfolio tblW cfgW stW "Current" = .ok (true, stWOut) ∧
    stWOut.value (modeOf "Current") =
      (stW.holdings.map (holdingContribution tblW cfgW
        (cfgW.effectiveDate (modeOf "Current")))).sum :=
  ⟨Or.inl rfl, by decide,
    (c1_valuation_total tblW cfgW stW "Current" true stWOut (Or.inl rfl) (by decide)).1⟩

unseal Rat.mul Rat.add Rat.sub Rat.inv in
theorem c3_miss_threshold_witness :
    ("Current" = "Current" ∨ "Current" = "Prior") ∧
    valuePortfolio [] cfgW stW3 "Current" = .ok (false, stW3Out) ∧
    (false = false ↔ cfgW.maxPriceMisses < stW3Out.priceMisses) :=
  ⟨Or.inl rfl, by decide,
    (c3_miss_threshold [] cfgW stW3 "Current" false stW3Out (Or.inl rfl) (by decide)).1⟩

unseal Rat.mul Rat.add Rat.sub Rat.inv in
theorem c4_fx_resolution_witness :
    ("Current" = "Current" ∨ "Current" = "Prior") ∧
    valuePortfolio tblFx cfgW stFx "Current" = .ok (true, stFxOut) ∧
    pricedOk tblFx (cfgW.effectiveDate (modeOf "Current"))
      (stFx.holdings.get ⟨0, Nat.zero_lt_one⟩) = true ∧
    ((stFxOut.holdings.get ⟨0, Nat.zero_lt_one⟩).snap (modeOf "Current")).fxRate =
      (getPriceOnDate tblFx
        (fxSymbol (stFx.holdings.get ⟨0, Nat.zero_lt_one⟩).currency cfgW.reportingCurrency)
        (cfgW.effectiveDate (modeOf "Current"))).1 :=
  ⟨Or.inl rfl, by decide, by decide,
    (c4_fx_resolution tblFx cfgW stFx "Current" true stFxOut (Or.inl rfl) (by decide)
      0 Nat.zero_lt_one Nat.zero_lt_one (by decide)).2 (by decide)⟩

unseal Rat.mul Rat.add Rat.sub Rat.inv in
theorem c5_crash_eval :
    valuePortfolio tblCrash cfgW stCrash "Current" = .error .typeError := by decide

unseal Rat.mul Rat.add Rat.sub Rat.inv in
theorem c5_continue_eval :
    valuePortfolio tblC5 cfgW stC5 "Current" = .ok (true, stC5Out) := by decide

/-- Claim C5 (code bug): when a holding's FX lookup returns no rate, the
source logs the fatal condition and falls through with `fx_rate = None`.  On
the failing input — the holding's own price lookup succeeds afterwards — the
multiplication `units_held * price * fx_rate` raises an uncaught `TypeError`
(portfolio.py line 272), so the pass does not continue; the claim that the
condition is only logged and never raised therefore fails there.  On the
companion input, where the same holding's own price lookup also misses, the
pass does continue exactly as the claim describes: the fatal FX condition is
only logged (`fatalErrors = 1`) and the later holding is still valued. -/
theorem c5_fx_miss_typeerror :
    valuePortfolio tblCrash cfgW stCrash "Current" = .error .typeError ∧
    valuePortfolio tblC5 cfgW stC5 "Current" = .ok (true, stC5Out) ∧
    stC5Out.fatalErrors = 1 :=
  ⟨c5_crash_eval, c5_continue_eval, rfl⟩

/-- In a table whose dates are non-increasing in the sense of the import sort,
the first matching entry has the greatest date among all matching entries. -/
theorem find_first_match_is_most_recent (s : String) (d : ℤ) :
    ∀ (l : List PriceEntry), tableSortedDesc l →
      ∀ e ∈ l, priceMatch s d e = true →
        ∃ e', l.find? (priceMatch s d) = some e' ∧ priceMatch s d e' = true ∧
          e.pdate ≤ e'.pdate := by
  intro l
  induction l with
  | nil => intro _ e he; cases he
  | cons a l ih =>
      intro hsort e he hme
      obtain ⟨ha, hsort'⟩ := List.pairwise_cons.mp hsort
      by_cases hma : priceMatch s d a = true
      · refine ⟨a, by simp [List.find?_cons, hma], hma, ?_⟩
        rcases List.mem_cons.mp he with rfl | he'
        · exact le_refl _
        · rcases ha e he' with hlt | ⟨heq, _⟩
          · exact le_of_lt hlt
          · exact le_of_eq heq
      · have hma' : priceMatch s d a = false := by simpa using hma
        have he' : e ∈ l := by
          rcases List.mem_cons.mp he with rfl | he'
          · rw [hme] at hma'; cases hma'
          · exact he'
        obtain ⟨e', hfind, hm', hle⟩ := ih hsort' e he' hme
        exact ⟨e', by simp [List.find?_cons, hma', hfind], hm', hle⟩

/-- Claim C2 counterexample: the claim quantifies over every symbol other
than the exact string `"cash"`, but the source compares case-insensitively
(`symbol.lower() == "cash"`, price_data.py line 84).  For the symbol
`"CASH"` — which is not `"cash"` — the code returns the fixed cash price
`(1.0, None)` instead of scanning the table, which holds a matching record
with price 2; so the claim as stated is false. -/
theorem c2_cash_case_counterexample :
    "CASH" ≠ "cash" ∧
    getPriceOnDate tblCASH "CASH" 0 ≠ specScanPrice tblCASH "CASH" 0 ∧
    getPriceOnDate tblCASH "CASH" 0 = (some 1, none) ∧
    specScanPrice tblCASH "CASH" 0 = (some 2, some "AUD") := by
  refine ⟨?_, ?_, ?_, ?_⟩ <;> decide

/-- Claim C2 (amended): for every symbol whose lower-cased form is not
`"cash"` and every query date, `get_price_on_date` scans the table and
returns the price and currency of the first record whose symbol matches and
whose date is ≤ the query date, and `(None, None)` when no record matches;
when the table is sorted descending by (date, symbol), that first match is
the most recent matching record at or before the query date. -/
theorem c2_price_lookup_scan (table : List PriceEntry) (s : String) (d : ℤ)
    (hs : pyLower s ≠ "cash") :
    getPriceOnDate table s d = specScanPrice table s d ∧
    (tableSortedDesc table →
      ∀ e ∈ table, priceMatch s d e = true →
        ∃ e', table.find? (priceMatch s d) = some e' ∧ priceMatch s d e' = true ∧
          e.pdate ≤ e'.pdate ∧ getPriceOnDate table s d = (some e'.price, e'.currency)) := by
  have hcash : (pyLower s == "cash") = false := by simpa using hs
  constructor
  · simp [getPriceOnDate, specScanPrice, hcash]
  · intro hsort e he hme
    obtain ⟨e', hfind, hm', hle⟩ := find_first_match_is_most_recent s d table hsort e he hme
    exact ⟨e', hfind, hm', hle, by simp [getPriceOnDate, hcash, hfind]⟩

unseal Rat.mul Rat.add Rat.sub Rat.inv in
theorem c2_price_lookup_scan_witness :
    pyLower "AAPL" ≠ "cash" ∧
    getPriceOnDate tblC2 "AAPL" 5 = specScanPrice tblC2 "AAPL" 5 ∧
    getPriceOnDate tblC2 "AAPL" 5 = (some 4, some "AUD") :=
  ⟨by decide, (c2_price_lookup_scan tblC2 "AAPL" 5 (by decide)).1, by decide⟩

/-- The winners/losers calculation on a non-empty holding list, written out:
percentage changes assigned, holdings sorted descending by change for the two
selections, then re-sorted by symbol; `winners` is rebuilt, `losers` is
appended to. -/
theorem calcWL_eq (cfg : Config) (st : PMState) (hne : st.holdings.isEmpty = false) :
    calculateWinnersAndLosers cfg st =
      (true, { st with
        holdings := ((st.holdings.map (fun h => { h with pcntChange := pcntOf h })).insertionSort
            pcntDescRel).insertionSort symbolAscRel
        winners := selectRanked (rankSizeOf cfg st.holdings.length) 0
          ((st.holdings.map (fun h => { h with pcntChange := pcntOf h })).insertionSort
            pcntDescRel)
        losers := st.losers ++ selectRanked (rankSizeOf cfg st.holdings.length) 0
          ((st.holdings.map (fun h => { h with pcntChange := pcntOf h })).insertionSort
            pcntDescRel).reverse }) := by
  simp [calculateWinnersAndLosers, hne]

/-- Claim C9: every holding coming out of the winners/losers calculation
carries the percentage change `(Current.Value - Prior.Value) / Prior.Value *
100` when its prior value is positive and exactly `0` otherwise; the guarded
branch means a zero or negative prior value never reaches the division. -/
theorem c9_pcnt_guard (cfg : Config) (st : PMState) :
    ∀ h1 ∈ (calculateWinnersAndLosers cfg st).2.holdings,
      h1.pcntChange =
        if 0 < h1.prior.value then
          (h1.current.value - h1.prior.value) / h1.prior.value * 100
        else 0 := by
  intro h1 hmem
  by_cases hemp : st.holdings.isEmpty
  · simp only [calculateWinnersAndLosers, hemp, if_true, reduceIte] at hmem
    rw [List.isEmpty_iff] at hemp
    simp [hemp] at hmem
  · have hemp' : st.holdings.isEmpty = false := by simpa using hemp
    rw [calcWL_eq cfg st hemp'] at hmem
    simp only [List.mem_insertionSort] at hmem
    obtain ⟨h0, _, rfl⟩ := List.mem_map.mp hmem
    simp [pcntOf]

unseal Rat.mul Rat.add Rat.sub Rat.inv in
theorem c9_pcnt_guard_witness :
    ({ symbol := "A", hclass := "E", currency := "AUD", unitsHeld := 1, costBasis := 0,
        current := { value := 6 }, prior := { value := 4 }, pcntChange := 50 } : Holding) ∈
      (calculateWinnersAndLosers cfgW st9).2.holdings ∧
    (50 : ℚ) = if (0 : ℚ) < 4 then ((6 : ℚ) - 4) / 4 * 100 else 0 :=
  ⟨by decide,
    c9_pcnt_guard cfgW st9
      { symbol := "A", hclass := "E", currency := "AUD", unitsHeld := 1, costBasis := 0,
        current := { value := 6 }, prior := { value := 4 }, pcntChange := 50 } (by decide)⟩

theorem half_lt_cast_iff (n c : ℕ) : ((n : ℚ) / 2 < (c : ℚ)) ↔ n < 2 * c := by
  rw [div_lt_iff₀ (by norm_num : (0:ℚ) < 2)]
  norm_cast
  omega

/-- The winner/loser selection loop takes exactly `rank - i` entries when the
list is long enough and the break index lies ahead. -/
theorem selectRanked_length (rank : ℤ) :
    ∀ (l : List Holding) (i : ℤ), i < rank → rank - i ≤ (l.length : ℤ) →
      ((selectRanked rank i l).length : ℤ) = rank - i := by
  intro l
  induction l with
  | nil =>
      intro i hlt hle
      simp only [List.length_nil, Nat.cast_zero] at hle
      omega
  | cons h t ih =>
      intro i hlt hle
      by_cases hbr : (i == rank - 1) = true
      · have hieq : i = rank - 1 := by simpa using hbr
        simp only [selectRanked, hbr, if_true, reduceIte, List.length_cons, List.length_nil]
        push_cast
        omega
      · have hbf : (i == rank - 1) = false := by simpa using hbr
        have h1 : i + 1 < rank := by
          have : i ≠ rank - 1 := by simpa using hbr
          omega
        have h2 : rank - (i + 1) ≤ (t.length : ℤ) := by
          simp only [List.length_cons] at hle
          push_cast at hle
          omega
        simp only [selectRanked, hbf, Bool.false_eq_true, if_false, List.length_cons]
        have := ih (i + 1) h1 h2
        push_cast
        omega

unseal Rat.mul Rat.add Rat.sub Rat.inv in
theorem pyRound_ten_half : pyRound ((10 : ℚ) / 2) = 5 := by decide

unseal Rat.mul Rat.add Rat.sub Rat.inv in
/-- Claim C6 counterexample: with 3 holdings and a configured count of 5, the
claim as stated caps the rank size at floor(3 / 2) = 1, but the source
computes Python's `round(3 / 2, 0) = 2` (round half to even), and the pass
indeed selects two winners. -/
theorem c6_floor_cap_counterexample :
    rankSizeOf cfgW st6.holdings.length = 2 ∧
    ¬ rankSizeOf cfgW st6.holdings.length = 1 ∧
    (calculateWinnersAndLosers cfgW st6).2.winners.length = 2 :=
  ⟨by decide, by decide, by decide⟩

/-- Claim C6 (amended): for every non-empty holding list, the effective rank
size equals the configured count when twice that count is at most the number
of holdings, and otherwise is capped at Python's `round(holdings / 2, 0)` —
round half to even, which agrees with floor(holdings / 2) except when the
holding count is ≡ 3 (mod 4); with 10 holdings and a configured count above
5, exactly 5 winners and 5 losers are selected. -/
theorem c6_rank_size (cfg : Config) (st : PMState) (hne : st.holdings ≠ []) :
    (2 * cfg.winnersAndLosers ≤ st.holdings.length →
      rankSizeOf cfg st.holdings.length = cfg.winnersAndLosers) ∧
    (st.holdings.length < 2 * cfg.winnersAndLosers →
      rankSizeOf cfg st.holdings.length = pyRound ((st.holdings.length : ℚ) / 2)) ∧
    (st.holdings.length = 10 → 5 < cfg.winnersAndLosers →
      (calculateWinnersAndLosers cfg st).2.winners.length = 5 ∧
      (calculateWinnersAndLosers cfg st).2.losers.length = st.losers.length + 5) := by
  have hne' : st.holdings.isEmpty = false := by
    simp [List.isEmpty_iff, hne]
  refine ⟨?_, ?_, ?_⟩
  · intro hc
    simp only [rankSizeOf]
    rw [if_neg (by rw [half_lt_cast_iff]; omega)]
  · intro hc
    simp only [rankSizeOf]
    rw [if_pos (by rw [half_lt_cast_iff]; omega)]
  · intro h10 hc
    have hrank : rankSizeOf cfg st.holdings.length = 5 := by
      rw [h10]
      simp only [rankSizeOf]
      rw [if_pos (by rw [half_lt_cast_iff]; omega)]
      exact pyRound_ten_half
    rw [calcWL_eq cfg st hne']
    have hlen : ((st.holdings.map (fun h => { h with pcntChange := pcntOf h })).insertionSort
        pcntDescRel).length = 10 := by
      rw [(List.perm_insertionSort _ _).length_eq, List.length_map, h10]
    constructor
    · have h5 := selectRanked_length 5
        ((st.holdings.map (fun h => { h with pcntChange := pcntOf h })).insertionSort
          pcntDescRel) 0 (by norm_num) (by rw [hlen]; norm_num)
      simp only [hrank]
      omega
    · have h5 := selectRanked_length 5
        ((st.holdings.map (fun h => { h with pcntChange := pcntOf h })).insertionSort
          pcntDescRel).reverse 0 (by norm_num) (by rw [List.length_reverse, hlen]; norm_num)
      simp only [hrank, List.length_append]
      omega

unseal Rat.mul Rat.add Rat.sub Rat.inv in
theorem c6_rank_size_witness :
    st10.holdings ≠ [] ∧
    (calculateWinnersAndLosers cfg6 st10).2.winners.length = 5 ∧
    (calculateWinnersAndLosers cfg6 st10).2.losers.length = st10.losers.length + 5 :=
  ⟨by decide, ((c6_rank_size cfg6 st10 (by decide)).2.2 (by decide) (by decide)).1,
    ((c6_rank_size cfg6 st10 (by decide)).2.2 (by decide) (by decide)).2⟩

/-- Claim C8 (code bug): `_import_price_data` removes rows from the list it
is iterating over (price_data.py lines 46 and 55); a removal shifts the
remaining rows left while the iterator index still advances, so the row
immediately after any removed row is never examined.  On the failing input —
two adjacent rows with unparseable dates — only the first is dropped and the
second is retained with its raw, unconverted fields; a good row directly
after a bad one is likewise retained unconverted.  A trailing bad row, and
rows of a clean file, behave as the claim describes. -/
theorem c8_import_remove_skips_rows :
    importRows dateParseEx priceParseEx [rawRow "AAA" "xx" "1", rawRow "BBB" "yy" "2"] =
      [rawRow "BBB" "yy" "2"] ∧
    importRows dateParseEx priceParseEx [rawRow "AAA" "xx" "1", rawRow "CCC" "3" "4"] =
      [rawRow "CCC" "3" "4"] ∧
    importRows dateParseEx priceParseEx [rawRow "CCC" "3" "4", rawRow "AAA" "xx" "1"] =
      [⟨"CCC", .intv 3, .qv 4⟩] ∧
    importRows dateParseEx priceParseEx [rawRow "CCC" "3" "4", rawRow "DDD" "2" "2"] =
      [⟨"CCC", .intv 3, .qv 4⟩, ⟨"DDD", .intv 2, .qv 2⟩] := by
  refine ⟨?_, ?_, ?_, ?_⟩ <;>
    simp [importRows, importGo, rawRow, dateParseEx, priceParseEx]

theorem AssetClassEntry.add_acClass (e : AssetClassEntry) (m : Mode) (v : ℚ) :
    (e.add m v).acClass = e.acClass := by
  cases m <;> rfl

theorem AssetClassEntry.get_add_self (e : AssetClassEntry) (m : Mode) (v : ℚ) :
    (e.add m v).get m = e.get m + v := by
  cases m <;> rfl

theorem AssetClassEntry.get_add_other (e : AssetClassEntry) (m m2 : Mode) (v : ℚ)
    (h : m2 ≠ m) : (e.add m v).get m2 = e.get m2 := by
  cases m <;> cases m2 <;> first | rfl | exact absurd rfl h

theorem updateFirstClass_map_acClass (c : String) (m : Mode) (v : ℚ) :
    ∀ acs : List AssetClassEntry,
      (updateFirstClass c m v acs).map AssetClassEntry.acClass =
        acs.map AssetClassEntry.acClass := by
  intro acs
  induction acs with
  | nil => rfl
  | cons a l ih =>
      by_cases ha : (a.acClass == c) = true
      · simp [updateFirstClass, ha, AssetClassEntry.add_acClass]
      · have haf : (a.acClass == c) = false := by simpa using ha
        simp [updateFirstClass, haf, ih]

theorem updateAllClass_map_acClass (c : String) (m : Mode) (v : ℚ) :
    ∀ acs : List AssetClassEntry,
      (updateAllClass c m v acs).map AssetClassEntry.acClass =
        acs.map AssetClassEntry.acClass := by
  intro acs
  induction acs with
  | nil => rfl
  | cons a l ih =>
      by_cases ha : (a.acClass == c) = true
      · simp [updateAllClass, ha, AssetClassEntry.add_acClass, ih]
      · have haf : (a.acClass == c) = false := by simpa using ha
        simp [updateAllClass, haf, ih]

/-- An `add_asset_class_value` call never changes existing class labels:
either it accumulates in place, or it appends the one new label. -/
theorem addACV_map_acClass (acs : List AssetClassEntry) (c : String) (m : Mode) (v : ℚ) :
    ((addAssetClassValue acs c m v).1).map AssetClassEntry.acClass =
      (if acs.any (fun e => e.acClass == c) then acs.map AssetClassEntry.acClass
       else acs.map AssetClassEntry.acClass ++ [c]) := by
  by_cases hany : acs.any (fun e => e.acClass == c) = true
  · simp [addAssetClassValue, hany, updateFirstClass_map_acClass]
  · have hf : acs.any (fun e => e.acClass == c) = false := by simpa using hany
    simp [addAssetClassValue, hf, updateAllClass_map_acClass]

/-- Class labels stay pairwise distinct across `add_asset_class_value`. -/
theorem addACV_nodup (acs : List AssetClassEntry) (c : String) (m : Mode) (v : ℚ)
    (hnd : (acs.map AssetClassEntry.acClass).Nodup) :
    (((addAssetClassValue acs c m v).1).map AssetClassEntry.acClass).Nodup := by
  rw [addACV_map_acClass]
  by_cases hany : acs.any (fun e => e.acClass == c) = true
  · simpa [hany] using hnd
  · have hf : acs.any (fun e => e.acClass == c) = false := by simpa using hany
    have hnotin : c ∉ acs.map AssetClassEntry.acClass := by
      intro hmem
      obtain ⟨e, hemem, hec⟩ := List.mem_map.mp hmem
      have := List.any_eq_false.mp hf e hemem
      simp [hec] at this
    simp only [hf, Bool.false_eq_true, if_false]
    rw [List.nodup_append]
    refine ⟨hnd, List.nodup_singleton c, ?_⟩
    intro a ha hc
    rw [List.mem_singleton] at hc
    subst hc
    exact hnotin ha

/-- The asset-class list built by any sequence of calls starting from the
empty list has pairwise-distinct class labels. -/
theorem runCalls_nodup (L : List (String × Mode × ℚ)) :
    ((runCalls L).map AssetClassEntry.acClass).Nodup := by
  have main : ∀ (L : List (String × Mode × ℚ)) (acs : List AssetClassEntry),
      (acs.map AssetClassEntry.acClass).Nodup →
      ((L.foldl (fun acs c => (addAssetClassValue acs c.1 c.2.1 c.2.2).1) acs).map
        AssetClassEntry.acClass).Nodup := by
    intro L
    induction L with
    | nil => intro acs h; simpa using h
    | cons x xs ih =>
        intro acs h
        exact ih _ (addACV_nodup acs x.1 x.2.1 x.2.2 h)
  exact main L [] (by simp)

theorem updateFirstClass_filter_ne (c : String) (m : Mode) (v : ℚ) :
    ∀ acs : List AssetClassEntry,
      (updateFirstClass c m v acs).filter (fun e => e.acClass != c) =
        acs.filter (fun e => e.acClass != c) := by
  intro acs
  induction acs with
  | nil => rfl
  | cons a l ih =>
      by_cases ha : (a.acClass == c) = true
      · have hac : a.acClass = c := by simpa using ha
        simp [updateFirstClass, ha, List.filter_cons, AssetClassEntry.add_acClass, hac]
      · have haf : (a.acClass == c) = false := by simpa using ha
        simp [updateFirstClass, haf, List.filter_cons, ih]

theorem updateAllClass_filter_ne (c : String) (m : Mode) (v : ℚ) :
    ∀ acs : List AssetClassEntry,
      (updateAllClass c m v acs).filter (fun e => e.acClass != c) =
        acs.filter (fun e => e.acClass != c) := by
  intro acs
  induction acs with
  | nil => rfl
  | cons a l ih =>
      by_cases ha : (a.acClass == c) = true
      · have hac : a.acClass = c := by simpa using ha
        simp [updateAllClass, ha, List.filter_cons, AssetClassEntry.add_acClass, ih, hac]
      · have haf : (a.acClass == c) = false := by simpa using ha
        simp [updateAllClass, haf, List.filter_cons, ih]

/-- `add_asset_class_value` leaves every entry of another class exactly as it
was, in the same relative order. -/
theorem addACV_filter_ne (acs : List AssetClassEntry) (c : String) (m : Mode) (v : ℚ) :
    ((addAssetClassValue acs c m v).1).filter (fun e => e.acClass != c) =
      acs.filter (fun e => e.acClass != c) := by
  by_cases hany : acs.any (fun e => e.acClass == c) = true
  · simp [addAssetClassValue, hany, updateFirstClass_filter_ne]
  · have hf : acs.any (fun e => e.acClass == c) = false := by simpa using hany
    simp [addAssetClassValue, hf, updateAllClass_filter_ne, List.filter_append]

theorem updateFirstClass_mem_c (c : String) (m : Mode) (v : ℚ) :
    ∀ acs : List AssetClassEntry, (acs.map AssetClassEntry.acClass).Nodup →
      ∀ e' ∈ updateFirstClass c m v acs, e'.acClass = c →
        ∃ e, acs.find? (fun x => x.acClass == c) = some e ∧ e' = e.add m v := by
  intro acs
  induction acs with
  | nil => intro _ e' he'; cases he'
  | cons a l ih =>
      intro hnd e' he' hc
      rw [List.map_cons, List.nodup_cons] at hnd
      obtain ⟨hnotin, hnd'⟩ := hnd
      by_cases ha : (a.acClass == c) = true
      · have hac : a.acClass = c := by simpa using ha
        simp only [updateFirstClass, ha, if_true, reduceIte] at he'
        rcases List.mem_cons.mp he' with rfl | he''
        · exact ⟨a, by simp [List.find?_cons, ha], rfl⟩
        · exfalso
          apply hnotin
          rw [hac, ← hc]
          exact List.mem_map_of_mem _ he''
      · have haf : (a.acClass == c) = false := by simpa using ha
        simp only [updateFirstClass, haf, Bool.false_eq_true, if_false] at he'
        rcases List.mem_cons.mp he' with rfl | he''
        · exact absurd hc (by simpa using ha)
        · obtain ⟨e, hfind, hee⟩ := ih hnd' e' he'' hc
          exact ⟨e, by simp [List.find?_cons, haf, hfind], hee⟩

theorem updateAllClass_append_fresh (c : String) (m : Mode) (v : ℚ) :
    ∀ acs : List AssetClassEntry, (∀ e ∈ acs, (e.acClass == c) = false) →
      updateAllClass c m v (acs ++ [{ acClass := c }]) =
        acs ++ [AssetClassEntry.add { acClass := c } m v] := by
  intro acs
  induction acs with
  | nil => simp [updateAllClass]
  | cons a l ih =>
      intro hall
      have ha : (a.acClass == c) = false := hall a (List.mem_cons_self a l)
      have hl : ∀ e ∈ l, (e.acClass == c) = false := fun e he =>
        hall e (List.mem_cons_of_mem a he)
      simp only [List.cons_append, updateAllClass, ha, Bool.false_eq_true, if_false,
        List.append_eq]
      rw [ih hl]

/-- Characterization of the entries carrying the named class after an
`add_asset_class_value` call on a list with pairwise-distinct labels: each
such entry is the first pre-existing entry of that class, or the freshly
appended zero entry, with the value added. -/
theorem addACV_c_entries (acs : List AssetClassEntry) (c : String) (m : Mode) (v : ℚ)
    (hnd : (acs.map AssetClassEntry.acClass).Nodup) :
    ∀ e' ∈ (addAssetClassValue acs c m v).1, e'.acClass = c →
      e' = (match acs.find? (fun x => x.acClass == c) with
            | some e => e.add m v
            | none => AssetClassEntry.add { acClass := c } m v) := by
  intro e' he' hc
  by_cases hany : acs.any (fun e => e.acClass == c) = true
  · simp only [addAssetClassValue, hany, if_true, reduceIte] at he'
    obtain ⟨e, hfind, hee⟩ := updateFirstClass_mem_c c m v acs hnd e' he' hc
    rw [hfind]
    exact hee
  · have hf : acs.any (fun e => e.acClass == c) = false := by simpa using hany
    have hall : ∀ e ∈ acs, (e.acClass == c) = false := fun e he => by
      simpa using List.any_eq_false.mp hf e he
    have hfind : acs.find? (fun x => x.acClass == c) = none :=
      List.find?_eq_none.mpr (fun e he => by simp [hall e he])
    simp only [addAssetClassValue, hf, Bool.false_eq_true, if_false] at he'
    rw [updateAllClass_append_fresh c m v acs hall] at he'
    rw [hfind]
    rcases List.mem_append.mp he' with hmem | hmem
    · exact absurd hc (by simpa using hall e' hmem)
    · simpa using hmem

/-- After an `add_asset_class_value` call on a list with pairwise-distinct
labels, exactly one entry carries the named class. -/
theorem addACV_count_one (acs : List AssetClassEntry) (c : String) (m : Mode) (v : ℚ)
    (hnd : (acs.map AssetClassEntry.acClass).Nodup) :
    (((addAssetClassValue acs c m v).1).filter (fun e => e.acClass == c)).length = 1 := by
  have key : ∀ l : List AssetClassEntry,
      (l.filter (fun e => e.acClass == c)).length = (l.map AssetClassEntry.acClass).count c := by
    intro l
    calc (l.filter (fun e => e.acClass == c)).length
        = l.countP (fun e => e.acClass == c) := (List.countP_eq_length_filter _ _).symm
      _ = (l.map AssetClassEntry.acClass).countP (fun s => s == c) := by
          rw [List.countP_map]; rfl
      _ = (l.map AssetClassEntry.acClass).count c := rfl
  rw [key, addACV_map_acClass]
  by_cases hany : acs.any (fun e => e.acClass == c) = true
  · simp only [hany, if_true, reduceIte]
    have hle := List.nodup_iff_count_le_one.mp hnd c
    have hmem : c ∈ acs.map AssetClassEntry.acClass := by
      obtain ⟨e, hemem, hec⟩ := List.any_eq_true.mp hany
      exact List.mem_map.mpr ⟨e, hemem, by simpa using hec⟩
    have hpos := List.count_pos_iff.mpr hmem
    omega
  · have hf : acs.any (fun e => e.acClass == c) = false := by simpa using hany
    have hz : (acs.map AssetClassEntry.acClass).count c = 0 := by
      rw [List.count_eq_zero]
      intro hmem
      obtain ⟨e, hemem, hec⟩ := List.mem_map.mp hmem
      have := List.any_eq_false.mp hf e hemem
      simp [hec] at this
    simp [hf, List.count_append, hz]

/-- Claim C10: starting from the empty aggregate list, any call sequence
keeps at most one entry per class label; a further
`add_asset_class_value(c, m, v)` call returns `True`, leaves every entry of
another class exactly as it was, keeps exactly one entry for class `c`, and
that entry's total for mode `m` grows by exactly `v` while its other mode's
total is unchanged (an absent class starts from the zeroed fresh entry). -/
theorem c10_asset_class_accumulation :
    ∀ (L : List (String × Mode × ℚ)) (c : String) (m : Mode) (v : ℚ),
      ((runCalls L).map AssetClassEntry.acClass).Nodup ∧
      (addAssetClassValue (runCalls L) c m v).2 = true ∧
      ((addAssetClassValue (runCalls L) c m v).1).filter (fun e => e.acClass != c) =
        (runCalls L).filter (fun e => e.acClass != c) ∧
      (((addAssetClassValue (runCalls L) c m v).1).filter (fun e => e.acClass == c)).length
        = 1 ∧
      (∀ e' ∈ (addAssetClassValue (runCalls L) c m v).1, e'.acClass = c →
        e'.get m = ((((runCalls L).find? (fun e => e.acClass == c)).map
            (fun e => e.get m)).getD 0) + v ∧
        (∀ m2, m2 ≠ m → e'.get m2 = ((((runCalls L).find? (fun e => e.acClass == c)).map
            (fun e => e.get m2)).getD 0))) := by
  intro L c m v
  have hnd := runCalls_nodup L
  refine ⟨hnd, ?_, addACV_filter_ne _ c m v, addACV_count_one _ c m v hnd, ?_⟩
  · by_cases hany : (runCalls L).any (fun e => e.acClass == c) = true
    · simp [addAssetClassValue, hany]
    · have hf : (runCalls L).any (fun e => e.acClass == c) = false := by simpa using hany
      simp [addAssetClassValue, hf]
  · intro e' he' hc
    have hchar := addACV_c_entries (runCalls L) c m v hnd e' he' hc
    rcases hfind : (runCalls L).find? (fun e => e.acClass == c) with _ | e
    · rw [hfind] at hchar
      subst hchar
      refine ⟨?_, ?_⟩
      · rw [AssetClassEntry.get_add_self, hfind]
        cases m <;> simp [AssetClassEntry.get]
      · intro m2 hm2
        rw [AssetClassEntry.get_add_other _ _ _ _ hm2, hfind]
        cases m2 <;> simp [AssetClassEntry.get]
    · rw [hfind] at hchar
      subst hchar
      refine ⟨?_, ?_⟩
      · rw [AssetClassEntry.get_add_self, hfind]
        simp
      · intro m2 hm2
        rw [AssetClassEntry.get_add_other _ _ _ _ hm2, hfind]
        simp

unseal Rat.mul Rat.add Rat.sub Rat.inv in
theorem c10_asset_class_accumulation_witness :
    ({ acClass := "Equity", current := 7 } : AssetClassEntry) ∈
      (addAssetClassValue (runCalls callsL0) "Equity" Mode.current 2).1 ∧
    ({ acClass := "Equity", current := 7 } : AssetClassEntry).get Mode.current =
      ((((runCalls callsL0).find? (fun e => e.acClass == "Equity")).map
        (fun e => e.get Mode.current)).getD 0) + 2 :=
  ⟨by decide,
    ((c10_asset_class_accumulation callsL0 "Equity" Mode.current 2).2.2.2.2
      { acClass := "Equity", current := 7 } (by decide) rfl).1⟩

/-- Specification of one ledger rewrite: the header is preserved, exactly one
data row carries the upserted date and it holds the rounded value, any
pre-existing row for that date is gone, rows with unparseable dates are
skipped, every other row is kept (re-rendered), and the data rows come out
sorted ascending by parsed date.  The two round-trip hypotheses say that the
external date parser inverts the formatter on the upserted date and on every
date read back from the file. -/
theorem ledgerUpsert_spec (parse : String → Option ℤ) (format : ℤ → String) (d : ℤ) (v : ℚ)
    (header : List String) (body : List (List String))
    (hrt : parse (format d) = some d)
    (hrt2 : ∀ row ∈ body,
      ((parse (row.headD "")).map (fun e => parse (format e) == some e)).getD true = true) :
    (ledgerUpsert parse format d v header body).headD [] = header ∧
    ((ledgerUpsert parse format d v header body).drop 1).countP
      (fun row => parse (row.headD "") == some d) = 1 ∧
    (∀ row ∈ (ledgerUpsert parse format d v header body).drop 1,
      parse (row.headD "") = some d → row = [format d, pyFloatRepr (pyRound v)]) ∧
    ((ledgerUpsert parse format d v header body).drop 1).Perm
      ((body.filter (ledgerRowKeep parse d)).map (rewriteLedgerRow parse format)
        ++ [[format d, pyFloatRepr (pyRound v)]]) ∧
    ((ledgerUpsert parse format d v header body).drop 1).Pairwise (ledgerLe parse) := by
  set kept := body.filter (ledgerRowKeep parse d) with hkept_def
  set newR : List String := [format d, pyFloatRepr (pyRound v)] with hnew_def
  set sorted := (kept ++ [newR]).insertionSort (ledgerLe parse) with hsorted_def
  have hunfold : ledgerUpsert parse format d v header body =
      header :: sorted.map (rewriteLedgerRow parse format) := by
    simp only [ledgerUpsert, hkept_def, hnew_def, hsorted_def]
  have hkeptfact : ∀ r ∈ kept, ∃ c rest e, r = c :: rest ∧ parse c = some e ∧ e ≠ d := by
    intro r hr
    rw [hkept_def, List.mem_filter] at hr
    obtain ⟨_, hkeep⟩ := hr
    rcases r with _ | ⟨c, rest⟩
    · simp [ledgerRowKeep] at hkeep
    · rcases hp : parse c with _ | e
      · simp [ledgerRowKeep, hp] at hkeep
      · refine ⟨c, rest, e, rfl, hp, ?_⟩
        simpa [ledgerRowKeep, hp] using hkeep
  have hkept_body : ∀ r ∈ kept, r ∈ body := by
    intro r hr
    rw [hkept_def, List.mem_filter] at hr
    exact hr.1
  have hrw_kept : ∀ r ∈ kept, ∃ e,
      rewriteLedgerRow parse format r = format e :: r.tail ∧
      parse ((rewriteLedgerRow parse format r).headD "") = some e ∧ e ≠ d ∧
      ledgerKey parse (rewriteLedgerRow parse format r) = ledgerKey parse r := by
    intro r hr
    obtain ⟨c, rest, e, rfl, hp, hne⟩ := hkeptfact r hr
    have hb := hrt2 (c :: rest) (hkept_body _ hr)
    rw [show (c :: rest).headD "" = c from rfl, hp] at hb
    have hb2 : parse (format e) = some e := by simpa using hb
    refine ⟨e, ?_, ?_, hne, ?_⟩
    · simp [rewriteLedgerRow, hp]
    · simp [rewriteLedgerRow, hp, hb2]
    · simp [ledgerKey, rewriteLedgerRow, hp, hb2]
  have hrw_new : rewriteLedgerRow parse format newR = newR := by
    simp [rewriteLedgerRow, hnew_def, hrt]
  have hnew_parse : parse (newR.headD "") = some d := by simp [hnew_def, hrt]
  have hperm0 : sorted.Perm (kept ++ [newR]) := List.perm_insertionSort _ _
  have hperm : (sorted.map (rewriteLedgerRow parse format)).Perm
      (kept.map (rewriteLedgerRow parse format) ++ [newR]) := by
    have h1 := hperm0.map (rewriteLedgerRow parse format)
    rw [List.map_append] at h1
    simpa [hrw_new] using h1
  have hdrop : (ledgerUpsert parse format d v header body).drop 1 =
      sorted.map (rewriteLedgerRow parse format) := by
    rw [hunfold]; rfl
  refine ⟨?_, ?_, ?_, ?_, ?_⟩
  · rw [hunfold]; rfl
  · rw [hdrop, hperm.countP_eq, List.countP_append]
    have hz : (kept.map (rewriteLedgerRow parse format)).countP
        (fun row => parse (row.headD "") == some d) = 0 := by
      rw [List.countP_eq_zero]
      intro row hrow
      obtain ⟨r, hr, rfl⟩ := List.mem_map.mp hrow
      obtain ⟨e, hleft, hpr, hne, _⟩ := hrw_kept r hr
      rw [hleft] at hpr ⊢
      simp only [List.headD] at hpr
      simp [hpr, hne]
    rw [hz]
    simp [hnew_def, List.countP_cons, hrt]
  · intro row hrow hpd
    rw [hdrop] at hrow
    have hrow2 : row ∈ kept.map (rewriteLedgerRow parse format) ++ [newR] :=
      hperm.mem_iff.mp hrow
    rcases List.mem_append.mp hrow2 with hmem | hmem
    · obtain ⟨r, hr, rfl⟩ := List.mem_map.mp hmem
      obtain ⟨e, _, hpr, hne, _⟩ := hrw_kept r hr
      rw [hpr] at hpd
      cases hpd
      exact absurd rfl hne
    · rw [List.mem_singleton] at hmem
      rw [hmem, hnew_def]
  · rw [hdrop]
    exact hperm
  · rw [hdrop]
    have hsorted : sorted.Pairwise (ledgerLe parse) :=
      List.sorted_insertionSort (ledgerLe parse) (kept ++ [newR])
    have hkey : ∀ r ∈ sorted, ledgerKey parse (rewriteLedgerRow parse format r) =
        ledgerKey parse r := by
      intro r hr
      rcases List.mem_append.mp (hperm0.mem_iff.mp hr) with hmem | hmem
      · obtain ⟨e, _, _, _, hkeq⟩ := hrw_kept r hmem
        exact hkeq
      · rw [List.mem_singleton] at hmem
        subst hmem
        rw [hrw_new]
    apply List.pairwise_map.mpr
    apply List.Pairwise.imp_of_mem ?_ hsorted
    intro a b ha hb hR
    show ledgerKey parse (rewriteLedgerRow parse format a) ≤
      ledgerKey parse (rewriteLedgerRow parse format b)
    rw [hkey a ha, hkey b hb]
    exact hR

/-- Claim C7: a ledger upsert with a configured ledger file and a set
effective date writes back the original header (or the default when the file
does not exist yet) followed by exactly one row for the upserted date whose
value is Python's `round(value, 0)`; any pre-existing row for that exact
date is removed, rows whose date fails to parse are skipped without error,
every other row is retained (re-rendered through the date parser), the data
rows are sorted ascending by parsed date, and with no configured ledger file
the operation is a no-op returning failure.  The hypotheses say that the
file, when it exists, has a header row, and that the external date parser
inverts the formatter on the relevant dates. -/
theorem c7_ledger_upsert (parse : String → Option ℤ) (format : ℤ → String)
    (file : Option (List (List String))) (d : ℤ) (v : ℚ)
    (hfile : file = none ∨ ∃ hd tl, file = some (hd :: tl))
    (hrt : parse (format d) = some d)
    (hrt2 : ∀ row ∈ fileBody file,
      ((parse (row.headD "")).map (fun e => parse (format e) == some e)).getD true = true) :
    savePortfolioValuation parse format (some file) (some d) v =
      some (true, some (some (ledgerUpsert parse format d v (fileHeader file)
        (fileBody file)))) ∧
    (ledgerUpsert parse format d v (fileHeader file) (fileBody file)).headD []
      = fileHeader file ∧
    ((ledgerUpsert parse format d v (fileHeader file) (fileBody file)).drop 1).countP
      (fun row => parse (row.headD "") == some d) = 1 ∧
    (∀ row ∈ (ledgerUpsert parse format d v (fileHeader file) (fileBody file)).drop 1,
      parse (row.headD "") = some d → row = [format d, pyFloatRepr (pyRound v)]) ∧
    ((ledgerUpsert parse format d v (fileHeader file) (fileBody file)).drop 1).Perm
      (((fileBody file).filter (ledgerRowKeep parse d)).map (rewriteLedgerRow parse format)
        ++ [[format d, pyFloatRepr (pyRound v)]]) ∧
    ((ledgerUpsert parse format d v (fileHeader file) (fileBody file)).drop 1).Pairwise
      (ledgerLe parse) ∧
    savePortfolioValuation parse format none (some d) v = some (false, none) := by
  obtain ⟨h1, h2, h3, h4, h5⟩ :=
    ledgerUpsert_spec parse format d v (fileHeader file) (fileBody file) hrt hrt2
  refine ⟨?_, h1, h2, h3, h4, h5, rfl⟩
  rcases hfile with rfl | ⟨hd, tl, rfl⟩
  · rfl
  · rfl

unseal Rat.mul Rat.add Rat.sub Rat.inv in
theorem c7_ledger_upsert_witness :
    (ledgerFileEx = none ∨ ∃ hd tl, ledgerFileEx = some (hd :: tl)) ∧
    dateParseEx (dateFormatEx 2) = some 2 ∧
    (∀ row ∈ fileBody ledgerFileEx,
      ((dateParseEx (row.headD "")).map
        (fun e => dateParseEx (dateFormatEx e) == some e)).getD true = true) ∧
    savePortfolioValuation dateParseEx dateFormatEx (some ledgerFileEx) (some 2) 1100 =
      some (true, some (some (ledgerUpsert dateParseEx dateFormatEx 2 1100
        (fileHeader ledgerFileEx) (fileBody ledgerFileEx)))) ∧
    ((ledgerUpsert dateParseEx dateFormatEx 2 1100 (fileHeader ledgerFileEx)
      (fileBody ledgerFileEx)).drop 1).countP
        (fun row => dateParseEx (row.headD "") == some 2) = 1 :=
  ⟨Or.inr ⟨["Date", "Valuation"], [["2", "900.0"], ["zz", "5"], ["1", "1000.0"]], rfl⟩,
    by decide, by decide,
    (c7_ledger_upsert dateParseEx dateFormatEx ledgerFileEx 2 1100
      (Or.inr ⟨["Date", "Valuation"], [["2", "900.0"], ["zz", "5"], ["1", "1000.0"]], rfl⟩)
      (by decide) (by decide)).1,
    (c7_ledger_upsert dateParseEx dateFormatEx ledgerFileEx 2 1100
      (Or.inr ⟨["Date", "Valuation"], [["2", "900.0"], ["zz", "5"], ["1", "1000.0"]], rfl⟩)
      (by decide) (by decide)).2.2.1⟩
